import Mathlib

/-!
Verification development for the cart-pole LQR/MPC tutorial notebook
(`mpc.ipynb`).  The notebook's numerical core is embedded shallowly over ℚ:
the continuous dynamics matrices `A`, `B`, the cost weights `Q`, `R`, the
Euler discretization `Ad = I + A·dt`, `Bd = B·dt`, the open-loop Euler
integrator, the cvxpy quadratic-program builder (objective and constraint
list built by a loop over the horizon), and the receding-horizon MPC
simulation loop.  The external QP solver (OSQP via cvxpy) is treated as a
black box, modelled by an abstract solve function (optionally fallible via
`Option`).
-/

namespace MPCTutorial

/-- Cart mass `M = 1` from the notebook. -/
def M : ℚ := 1

/-- Pendulum mass `m = 0.1`. -/
def m : ℚ := 1/10

/-- Pendulum length `l = 1`. -/
def l : ℚ := 1

/-- Gravity `g = 9.8`. -/
def g : ℚ := 49/5

/-- Continuous-time dynamics matrix `A` of the linearised cart pole,
exactly as defined in the notebook cell. -/
def A : Matrix (Fin 4) (Fin 4) ℚ :=
  !![0, 1, 0,           0;
     0, 0, -(m*g/M),    0;
     0, 0, 0,           1;
     0, 0, (m+M)*g/l/M, 0]

/-- Continuous-time input matrix `B` from the notebook cell. -/
def B : Matrix (Fin 4) (Fin 1) ℚ :=
  !![0; 1/M; 0; -(1/l/M)]

/-- `xdot(x,u) = A.dot(x) + B.dot(u)` — the continuous state derivative. -/
def xdot (x : Fin 4 → ℚ) (u : Fin 1 → ℚ) : Fin 4 → ℚ :=
  A.mulVec x + B.mulVec u

/-- Discretization step `dt = 1e-3` set in the simulation cell. -/
def dt : ℚ := 1/1000

/-- Stage state weight `Q = np.diag([1, 100, 0.1, 1])`. -/
def Q : Matrix (Fin 4) (Fin 4) ℚ :=
  Matrix.diagonal ![1, 100, 1/10, 1]

/-- Stage control weight `R = 0.001*np.eye(1)`. -/
def R : Matrix (Fin 1) (Fin 1) ℚ :=
  (1/1000 : ℚ) • (1 : Matrix (Fin 1) (Fin 1) ℚ)

/-- Stage cost `q[t] = np.dot(x, np.dot(Q, x)) + np.dot(u, np.dot(R, u))`
from the stage-cost evaluation cell. -/
def stageCost (x : Fin 4 → ℚ) (u : Fin 1 → ℚ) : ℚ :=
  Matrix.dotProduct x (Q.mulVec x) + Matrix.dotProduct u (R.mulVec u)

/-- Discrete dynamics matrix `Ad = np.eye(dim_x) + A*dt`. -/
def Ad : Matrix (Fin 4) (Fin 4) ℚ := 1 + dt • A

/-- Discrete input matrix `Bd = B*dt`. -/
def Bd : Matrix (Fin 4) (Fin 1) ℚ := dt • B

/-- Discrete stage state weight `Qd = Q*dt`. -/
def Qd : Matrix (Fin 4) (Fin 4) ℚ := dt • Q

/-- Discrete stage control weight `Rd = R*dt`. -/
def Rd : Matrix (Fin 1) (Fin 1) ℚ := dt • R

/-- The state sequence filled in by `integrateOpenLoop`'s loop body
`X[:, t+1] = X[:, t] + xdot(X[:, t], U[:, t])*dt`.  `U t` is column `t`
of the control array. -/
def openLoopTraj (x0 : Fin 4 → ℚ) (U : ℕ → Fin 1 → ℚ) (dt : ℚ) : ℕ → Fin 4 → ℚ
  | 0 => x0
  | t + 1 => openLoopTraj x0 U dt t + dt • xdot (openLoopTraj x0 U dt t) (U t)

/-- `integrateOpenLoop(x0, U, steps, dt)`: returns the array `X` of
`steps+1` state columns, `X[:,0] = x0`, successive columns produced by the
Euler update.  The array is modelled as the list of its columns. -/
def integrateOpenLoop (x0 : Fin 4 → ℚ) (U : ℕ → Fin 1 → ℚ) (steps : ℕ)
    (dt : ℚ) : List (Fin 4 → ℚ) :=
  (List.range (steps + 1)).map (openLoopTraj x0 U dt)

/-- cvxpy `quad_form(x, S) = x^T S x`. -/
def quadForm {n : ℕ} (x : Fin n → ℚ) (S : Matrix (Fin n) (Fin n) ℚ) : ℚ :=
  Matrix.dotProduct x (S.mulVec x)

/-- The QP objective built by the builder cell:
`objective = 0`, then for `k in range(N)`
`objective += quad_form(X[:,k], Qd) + quad_form(U[:,k], Rd)`, and finally
`objective += quad_form(X[:,N], P)`.  `Pmat` is the terminal weight used in
that last line (the Riccati solution `P` in the notebook). -/
def mpcObjective (N : ℕ) (Pmat : Matrix (Fin 4) (Fin 4) ℚ)
    (X : ℕ → Fin 4 → ℚ) (U : ℕ → Fin 1 → ℚ) : ℚ :=
  (List.range N).foldl
    (fun obj k => obj + (quadForm (X k) Qd + quadForm (U k) Rd)) 0
    + quadForm (X N) Pmat

/-- The QP constraint list built by the builder cell:
`constraints = [X[:,0] == x_init]`, then for `k in range(N)`
`constraints += [X[:,k+1] == Ad@X[:,k] + Bd@U[:,k]]` followed by the input
bound.  The input-bound term is a notebook `#TODO`; it is
modelled from the spec: an elementwise box constraint `|u| ≤ u_max` on each
control column. -/
def mpcConstraints (N : ℕ) (u_max : ℚ) (xinit : Fin 4 → ℚ)
    (X : ℕ → Fin 4 → ℚ) (U : ℕ → Fin 1 → ℚ) : List Prop :=
  (List.range N).foldl
    (fun cs k =>
      (cs ++ [X (k + 1) = Ad.mulVec (X k) + Bd.mulVec (U k)])
        ++ [∀ i, |U k i| ≤ u_max])
    [X 0 = xinit]

/-- All constraints in a cvxpy constraint list hold. -/
def listAll : List Prop → Prop
  | [] => True
  | c :: cs => c ∧ listAll cs

/-- The MPC simulation loop.  `solve x` abstracts the value of the cvxpy
variable `U` after `x_init.value = x; mpc.solve(...)`: `solve x k` is the
planned control column `U[:,k].value`.  Each iteration sets the parameter
to the current state, solves, and advances the plant with the first column
only: `x = Ad.dot(x) + Bd.dot(U[:,0].value)`. -/
def mpcClosedLoop (solve : (Fin 4 → ℚ) → ℕ → Fin 1 → ℚ)
    (x0 : Fin 4 → ℚ) : ℕ → Fin 4 → ℚ
  | 0 => x0
  | t + 1 =>
    Ad.mulVec (mpcClosedLoop solve x0 t)
      + Bd.mulVec (solve (mpcClosedLoop solve x0 t) 0)

/-- The cvxpy `Problem` structure as the loop sees it: a fixed objective
and a constraint-list function of the initial-condition parameter. -/
structure CvxProblem where
  objective : (ℕ → Fin 4 → ℚ) → (ℕ → Fin 1 → ℚ) → ℚ
  constraints : (Fin 4 → ℚ) → (ℕ → Fin 4 → ℚ) → (ℕ → Fin 1 → ℚ) → List Prop

/-- The builder cell run once before the loop:
`mpc = Problem(Minimize(objective), constraints)` with the parameter
`x_init` left free. -/
def buildMPC (N : ℕ) (u_max : ℚ) (Pmat : Matrix (Fin 4) (Fin 4) ℚ) :
    CvxProblem :=
  { objective := mpcObjective N Pmat
    constraints := fun xinit => mpcConstraints N u_max xinit }

/-- State carried across iterations of the simulation loop: the built
problem `mpc`, the current value of the parameter `x_init`, and the
simulated plant state `x`. -/
structure SimState where
  mpc : CvxProblem
  x_init_value : Fin 4 → ℚ
  x : Fin 4 → ℚ

/-- One iteration of the simulation loop body:
`x_init.value = x; mpc.solve(...); x = Ad.dot(x) + Bd.dot(U[:,0].value)`.
`solve p xv` abstracts the solver output for problem `p` at parameter
value `xv`. -/
def simStep (solve : CvxProblem → (Fin 4 → ℚ) → ℕ → Fin 1 → ℚ)
    (s : SimState) : SimState :=
  let s1 : SimState := { s with x_init_value := s.x }
  let Uval := solve s1.mpc s1.x_init_value
  { s1 with x := Ad.mulVec s1.x + Bd.mulVec (Uval 0) }

/-- `t` iterations of the simulation loop. -/
def simLoop (solve : CvxProblem → (Fin 4 → ℚ) → ℕ → Fin 1 → ℚ)
    (s : SimState) : ℕ → SimState
  | 0 => s
  | t + 1 => simStep solve (simLoop solve s t)

/-- Failure taxonomy of a per-step solve (spec section 7). -/
inductive MPCError where
  | SolveFailure : MPCError
deriving DecidableEq

/-- The simulation loop with a fallible solver.  `solve x = none` models a
per-step solve that fails (raises / returns no value in Python): the
failure aborts the loop — no successor state is computed from an
undefined control — and propagates as a `SolveFailure` condition. -/
def mpcLoopChecked (solve : (Fin 4 → ℚ) → Option (ℕ → Fin 1 → ℚ))
    (x0 : Fin 4 → ℚ) : ℕ → Except MPCError (Fin 4 → ℚ)
  | 0 => Except.ok x0
  | t + 1 =>
    match mpcLoopChecked solve x0 t with
    | Except.error e => Except.error e
    | Except.ok x =>
      match solve x with
      | none => Except.error MPCError.SolveFailure
      | some Uval => Except.ok (Ad.mulVec x + Bd.mulVec (Uval 0))

/-! ### Helper lemmas -/

theorem listAll_append (l1 l2 : List Prop) :
    listAll (l1 ++ l2) ↔ listAll l1 ∧ listAll l2 := by
  induction l1 with
  | nil => simp [listAll]
  | cons c cs ih => simp [listAll, ih, and_assoc]

theorem foldl_add_range (gf : ℕ → ℚ) (a : ℚ) (N : ℕ) :
    (List.range N).foldl (fun obj k => obj + gf k) a
      = a + ∑ k ∈ Finset.range N, gf k := by
  induction N with
  | zero => simp
  | succ n ih =>
    rw [List.range_succ, List.foldl_append, ih, Finset.sum_range_succ]
    simp [add_assoc]

theorem listAll_foldl_range (P1 P2 : ℕ → Prop) (cs0 : List Prop) (N : ℕ) :
    listAll ((List.range N).foldl
      (fun cs k => (cs ++ [P1 k]) ++ [P2 k]) cs0) ↔
      listAll cs0 ∧ ∀ k, k < N → (P1 k ∧ P2 k) := by
  induction N with
  | zero => simp [listAll]
  | succ n ih =>
    rw [List.range_succ, List.foldl_append, List.foldl_cons, List.foldl_nil,
      listAll_append, listAll_append, ih]
    simp only [listAll, and_true, Nat.forall_lt_succ]
    tauto

theorem stageCost_eq (x : Fin 4 → ℚ) (u : Fin 1 → ℚ) :
    stageCost x u
      = x 0 ^ 2 + 100 * x 1 ^ 2 + (1/10) * x 2 ^ 2 + x 3 ^ 2
        + (1/1000) * u 0 ^ 2 := by
  simp [stageCost, Q, R, Matrix.dotProduct, Matrix.mulVec, Matrix.diagonal,
    Fin.sum_univ_four, Fin.sum_univ_one, Matrix.one_apply]
  ring

/-! ### Claim theorems -/

/-- C3: the discrete dynamics matrices are the first-order Euler
discretization of the continuous ones: `Ad = I + A·dt`, `Bd = B·dt`, with
the fixed step `dt = 1e-3`; the concrete entries are as computed from the
cart-pole values. -/
theorem Ad_Bd_euler_discretization :
    Ad = 1 + dt • A ∧ Bd = dt • B ∧ dt = 1/1000 ∧
    Ad = !![1, 1/1000, 0,           0;
            0, 1,      -(49/50000), 0;
            0, 0,      1,           1/1000;
            0, 0,      539/50000,   1] ∧
    Bd = !![0; 1/1000; 0; -(1/1000)] := by
  refine ⟨rfl, rfl, rfl, ?_, ?_⟩ <;>
  · ext i j
    fin_cases i <;> fin_cases j <;>
      norm_num [Ad, Bd, A, B, dt, M, m, l, g,
        Matrix.add_apply, Matrix.smul_apply, Matrix.one_apply] <;>
      decide

/-- C5: one discrete plant update equals one Euler integrator step: for
every state `x` and control `u`, `Ad.dot(x) + Bd.dot(u) = x + xdot(x,u)*dt`
— the prediction model inside the MPC loop coincides with the Euler
integration of the continuous model. -/
theorem discrete_update_eq_euler_step (x : Fin 4 → ℚ) (u : Fin 1 → ℚ) :
    Ad.mulVec x + Bd.mulVec u = x + dt • xdot x u := by
  simp only [Ad, Bd, xdot, Matrix.add_mulVec, Matrix.one_mulVec,
    Matrix.smul_mulVec_assoc, smul_add]
  abel

/-- C6: the stage cost `xᵀQx + uᵀRu` with `Q = diag(1,100,0.1,1)` and
`R = 0.001·I` is nonnegative, and vanishes exactly at `x = 0`, `u = 0`. -/
theorem stageCost_nonneg_and_zero_iff (x : Fin 4 → ℚ) (u : Fin 1 → ℚ) :
    0 ≤ stageCost x u ∧ (stageCost x u = 0 ↔ x = 0 ∧ u = 0) := by
  rw [stageCost_eq]
  refine ⟨by positivity, ?_, ?_⟩
  · intro h
    have h0 : x 0 = 0 := by
      have := sq_nonneg (x 0)
      nlinarith [sq_nonneg (x 1), sq_nonneg (x 2), sq_nonneg (x 3),
        sq_nonneg (u 0)]
    have h1 : x 1 = 0 := by
      nlinarith [sq_nonneg (x 0), sq_nonneg (x 2), sq_nonneg (x 3),
        sq_nonneg (u 0)]
    have h2 : x 2 = 0 := by
      nlinarith [sq_nonneg (x 0), sq_nonneg (x 1), sq_nonneg (x 3),
        sq_nonneg (u 0)]
    have h3 : x 3 = 0 := by
      nlinarith [sq_nonneg (x 0), sq_nonneg (x 1), sq_nonneg (x 2),
        sq_nonneg (u 0)]
    have h4 : u 0 = 0 := by
      nlinarith [sq_nonneg (x 0), sq_nonneg (x 1), sq_nonneg (x 2),
        sq_nonneg (x 3)]
    constructor
    · funext i; fin_cases i <;> simpa
    · funext i; fin_cases i <;> simpa
  · rintro ⟨hx, hu⟩
    rw [hx, hu]
    norm_num

/-- C1: the QP built by the builder cell is exactly the stated program:
the objective accumulated by the loop equals
`Σ_{k<N} (x_kᵀQd x_k + u_kᵀRd u_k) + x_NᵀP x_N` with `Qd = Q·dt` and
`Rd = R·dt`, and the accumulated constraint list holds iff
`X[:,0] = x_init`, the dynamics equalities hold for `k = 0..N-1`, and the
optional input bounds hold for `k = 0..N-1`. -/
theorem qp_builder_builds_stated_program (N : ℕ) (xinit : Fin 4 → ℚ)
    (u_max : ℚ) (Pmat : Matrix (Fin 4) (Fin 4) ℚ)
    (X : ℕ → Fin 4 → ℚ) (U : ℕ → Fin 1 → ℚ) :
    mpcObjective N Pmat X U
        = (∑ k ∈ Finset.range N, (quadForm (X k) Qd + quadForm (U k) Rd))
          + quadForm (X N) Pmat
      ∧ Qd = dt • Q ∧ Rd = dt • R
      ∧ (listAll (mpcConstraints N u_max xinit X U) ↔
          (X 0 = xinit
            ∧ (∀ k, k < N → X (k + 1) = Ad.mulVec (X k) + Bd.mulVec (U k))
            ∧ (∀ k, k < N → ∀ i, |U k i| ≤ u_max))) := by
  refine ⟨?_, rfl, rfl, ?_⟩
  · rw [mpcObjective, foldl_add_range, zero_add]
  · rw [mpcConstraints, listAll_foldl_range]
    constructor
    · rintro ⟨⟨h0, -⟩, h⟩
      exact ⟨h0, fun k hk => (h k hk).1, fun k hk => (h k hk).2⟩
    · rintro ⟨h0, h1, h2⟩
      exact ⟨⟨h0, trivial⟩, fun k hk => ⟨h1 k hk, h2 k hk⟩⟩

/-- A solver stub for the witness below: all planned columns zero. -/
def solveWA : (Fin 4 → ℚ) → ℕ → Fin 1 → ℚ := fun _ _ _ => 0

/-- A solver stub agreeing with `solveWA` on column `0` only. -/
def solveWB : (Fin 4 → ℚ) → ℕ → Fin 1 → ℚ :=
  fun _ k _ => if k = 0 then 0 else 1

/-- C2: each loop iteration applies only the first optimized control move:
the successor state is `Ad·x_t + Bd·(solve x_t)[:,0]` where the solve is
parameterized by the current state, and two solvers agreeing on column `0`
produce identical closed-loop trajectories — the remaining planned columns
have no effect on any later state. -/
theorem receding_horizon_applies_first_move_only
    (solve solveB : (Fin 4 → ℚ) → ℕ → Fin 1 → ℚ) (x0 : Fin 4 → ℚ)
    (hfirst : ∀ x, solve x 0 = solveB x 0) (t : ℕ) :
    mpcClosedLoop solve x0 (t + 1)
        = Ad.mulVec (mpcClosedLoop solve x0 t)
          + Bd.mulVec (solve (mpcClosedLoop solve x0 t) 0)
      ∧ mpcClosedLoop solve x0 t = mpcClosedLoop solveB x0 t := by
  refine ⟨rfl, ?_⟩
  induction t with
  | zero => rfl
  | succ n ih => simp only [mpcClosedLoop, ih, hfirst]

/-- Witness for C2 at a concrete input: the two stub solvers differ in
every planned column except the first, yet the simulated trajectories
coincide. -/
theorem receding_horizon_applies_first_move_only_witness :
    mpcClosedLoop solveWA 0 2 = mpcClosedLoop solveWB 0 2 :=
  (receding_horizon_applies_first_move_only solveWA solveWB 0
    (fun _ => rfl) 2).2

/-- C8: across loop iterations only the parameter value and the plant
state change: after any number of iterations the built problem object
(objective and constraint structure) is the one built before the loop,
and each iteration sets the initial-condition parameter to the current
simulated state. -/
theorem qp_structure_unchanged_across_solves
    (solve : CvxProblem → (Fin 4 → ℚ) → ℕ → Fin 1 → ℚ)
    (s : SimState) (t : ℕ) :
    (simLoop solve s t).mpc = s.mpc
      ∧ (simStep solve (simLoop solve s t)).x_init_value
          = (simLoop solve s t).x := by
  refine ⟨?_, rfl⟩
  induction t with
  | zero => rfl
  | succ n ih => simpa [simLoop, simStep] using ih

/-- C7: `integrateOpenLoop(x0, U, steps, dt)` returns exactly `steps+1`
state columns, the first is `x0`, and each next column is the Euler update
`X[:,t+1] = X[:,t] + xdot(X[:,t], U[:,t])·dt` of the previous one. -/
theorem integrateOpenLoop_spec (x0 : Fin 4 → ℚ) (U : ℕ → Fin 1 → ℚ)
    (steps : ℕ) (dt : ℚ) :
    (integrateOpenLoop x0 U steps dt).length = steps + 1
      ∧ (integrateOpenLoop x0 U steps dt).get? 0 = some x0
      ∧ ∀ t, t < steps →
          (integrateOpenLoop x0 U steps dt).get? (t + 1)
            = ((integrateOpenLoop x0 U steps dt).get? t).map
                (fun x => x + dt • xdot x (U t)) := by
  refine ⟨by simp [integrateOpenLoop], ?_, ?_⟩
  · simp [integrateOpenLoop, List.get?_map, List.get?_range, openLoopTraj]
  · intro t ht
    have h1 : t + 1 < steps + 1 := by omega
    have h2 : t < steps + 1 := by omega
    simp [integrateOpenLoop, List.get?_map, List.get?_range, h1, h2,
      openLoopTraj]

/-- The notebook's first open-loop initial state `x0 = [0, 0, 1e-3, 0]`. -/
def x0w : Fin 4 → ℚ := ![0, 0, 1/1000, 0]

/-- The zero control array `U = np.zeros([1, steps])`, as a function. -/
def Uw0 : ℕ → Fin 1 → ℚ := fun _ _ => 0

/-- Witness for C7 at the notebook's own input (one step, zero control). -/
theorem integrateOpenLoop_spec_witness :
    (integrateOpenLoop x0w Uw0 1 dt).get? (0 + 1)
      = ((integrateOpenLoop x0w Uw0 1 dt).get? 0).map
          (fun x => x + dt • xdot x (Uw0 0)) :=
  (integrateOpenLoop_spec x0w Uw0 1 dt).2.2 0 (by norm_num)

/-- C4: in the input-constrained configuration, if every per-step solve
returns a point satisfying the built QP's constraints (the external
solver's contract), then at every reachable simulation step the applied
first control move satisfies `|U[:,0]| ≤ u_max`. -/
theorem constrained_mpc_first_control_in_bounds (N : ℕ) (u_max : ℚ)
    (solveX : (Fin 4 → ℚ) → ℕ → Fin 4 → ℚ)
    (solveU : (Fin 4 → ℚ) → ℕ → Fin 1 → ℚ) (x0 : Fin 4 → ℚ)
    (hN : 0 < N)
    (hfeas : ∀ x, listAll (mpcConstraints N u_max x (solveX x) (solveU x)))
    (t : ℕ) (i : Fin 1) :
    |solveU (mpcClosedLoop solveU x0 t) 0 i| ≤ u_max := by
  have h := hfeas (mpcClosedLoop solveU x0 t)
  rw [mpcConstraints, listAll_foldl_range] at h
  exact (h.2 0 hN).2 i

/-- Dynamically feasible predicted states for the witness below:
`X[:,0] = x`, then propagated by `Ad` (the zero-control prediction). -/
def solveXw (x : Fin 4 → ℚ) : ℕ → Fin 4 → ℚ
  | 0 => x
  | k + 1 => Ad.mulVec (solveXw x k)

/-- The all-zero planned control for the witness below. -/
def solveUw : (Fin 4 → ℚ) → ℕ → Fin 1 → ℚ := fun _ _ _ => 0

/-- Witness for C4: with horizon `1`, bound `u_max = 0` and the zero-plan
solver (which is feasible for every parameter value), the applied control
at step `3` respects the bound. -/
theorem constrained_mpc_first_control_in_bounds_witness :
    |solveUw (mpcClosedLoop solveUw x0w 3) 0 0| ≤ 0 :=
  constrained_mpc_first_control_in_bounds 1 0 solveXw solveUw x0w
    (by norm_num)
    (fun x => by
      have hU : solveUw x 0 = 0 := rfl
      simp only [mpcConstraints, List.range_succ, List.range_zero,
        List.nil_append, List.foldl_cons, List.foldl_nil,
        List.cons_append]
      refine ⟨rfl, ?_, ?_, trivial⟩
      · simp [solveXw, hU, Matrix.mulVec_zero]
      · intro i
        simp [hU])
    3 0

theorem mpcLoopChecked_succ_error
    (solve : (Fin 4 → ℚ) → Option (ℕ → Fin 1 → ℚ)) (x0 : Fin 4 → ℚ)
    (t : ℕ) (e : MPCError)
    (hprev : mpcLoopChecked solve x0 t = Except.error e) :
    mpcLoopChecked solve x0 (t + 1) = Except.error e := by
  rw [mpcLoopChecked, hprev]

theorem mpcLoopChecked_succ_ok
    (solve : (Fin 4 → ℚ) → Option (ℕ → Fin 1 → ℚ)) (x0 : Fin 4 → ℚ)
    (t : ℕ) (x : Fin 4 → ℚ)
    (hprev : mpcLoopChecked solve x0 t = Except.ok x) :
    mpcLoopChecked solve x0 (t + 1)
      = match solve x with
        | none => Except.error MPCError.SolveFailure
        | some Uval => Except.ok (Ad.mulVec x + Bd.mulVec (Uval 0)) := by
  rw [mpcLoopChecked, hprev]

/-- C9: in the loop with a fallible per-step solve, every successor state
in an `ok` run comes from a successful solve at the previous state, and a
failed solve propagates as the `SolveFailure` error to every later step —
the loop never advances the plant with an undefined control. -/
theorem solve_failure_propagates
    (solve : (Fin 4 → ℚ) → Option (ℕ → Fin 1 → ℚ)) (x0 : Fin 4 → ℚ)
    (t : ℕ) :
    (∀ x2, mpcLoopChecked solve x0 (t + 1) = Except.ok x2 →
        ∃ x Uval, mpcLoopChecked solve x0 t = Except.ok x
          ∧ solve x = some Uval
          ∧ x2 = Ad.mulVec x + Bd.mulVec (Uval 0))
      ∧ (∀ e, mpcLoopChecked solve x0 t = Except.error e →
          ∀ s, mpcLoopChecked solve x0 (t + s) = Except.error e) := by
  constructor
  · intro x2 h
    cases hprev : mpcLoopChecked solve x0 t with
    | error e =>
      rw [mpcLoopChecked_succ_error solve x0 t e hprev] at h
      exact absurd h (by simp)
    | ok x =>
      rw [mpcLoopChecked_succ_ok solve x0 t x hprev] at h
      cases hs : solve x with
      | none =>
        rw [hs] at h
        exact absurd h (by simp)
      | some Uval =>
        rw [hs] at h
        simp only [Except.ok.injEq] at h
        exact ⟨x, Uval, rfl, hs, h.symm⟩
  · intro e he s
    induction s with
    | zero => exact he
    | succ n ih =>
      rw [← Nat.add_assoc]
      exact mpcLoopChecked_succ_error solve x0 (t + n) e ih

/-- A solver stub that always succeeds with the zero plan. -/
def solveOkW : (Fin 4 → ℚ) → Option (ℕ → Fin 1 → ℚ) := fun _ => some 0

/-- A solver stub that always fails. -/
def solveBadW : (Fin 4 → ℚ) → Option (ℕ → Fin 1 → ℚ) := fun _ => none

/-- Witness for C9: with the always-succeeding stub the step-1 `ok` state
decomposes through a successful solve, and with the always-failing stub
the step-1 failure is still the reported result two steps later. -/
theorem solve_failure_propagates_witness :
    (∃ x Uval, mpcLoopChecked solveOkW 0 0 = Except.ok x
        ∧ solveOkW x = some Uval
        ∧ (0 : Fin 4 → ℚ) = Ad.mulVec x + Bd.mulVec (Uval 0))
      ∧ mpcLoopChecked solveBadW 0 (1 + 2)
          = Except.error MPCError.SolveFailure := by
  constructor
  · exact (solve_failure_propagates solveOkW 0 0).1 0
      (by simp [mpcLoopChecked, solveOkW, Matrix.mulVec_zero])
  · exact (solve_failure_propagates solveBadW 0 1).2 MPCError.SolveFailure
      (by simp [mpcLoopChecked, solveBadW]) 2

end MPCTutorial
